import Mathlib

/-!
Shallow embedding of the memegrid sliding-puzzle core: the seeded RNG and
puzzle engine from src/shared/puzzle.ts, the hint heuristic from the client
game file, and the leaderboard submit/query handlers from the server api file.
JavaScript numbers are modelled as Int (the arithmetic the code performs on
them is exact in double precision for the ranges involved: all RNG states stay
below 2^32 in magnitude, so every product stays below 2^53); array reads and
writes outside the index range follow JavaScript semantics (undefined reads,
property writes).
-/

namespace Memegrid

/-- One step of the linear congruential generator of createSeededRandom:
currentSeed = (currentSeed * 1664525 + 1013904223) % 2 ** 32. The JavaScript
remainder operator truncates toward zero (the sign follows the dividend),
which is Int.tmod; for a negative state the next state is negative. -/
def lcgNext (s : Int) : Int :=
  Int.tmod (s * 1664525 + 1013904223) (2 ^ 32)

/-- Model of a JavaScript number array that may hold undefined entries: elems
are the indexed slots 0..length-1 (none = undefined); props records writes at
indices outside that range, which JavaScript stores as ordinary object
properties that later reads at the same index see again. -/
structure JSArr where
  elems : List (Option Nat)
  props : List (Int × Option Nat)
deriving DecidableEq

/-- Read slot j: an indexed slot when 0 <= j < length, otherwise the last
property written at j (undefined when absent). -/
def jsGet (a : JSArr) (j : Int) : Option Nat :=
  if 0 ≤ j ∧ j < a.elems.length then a.elems.getD j.toNat none
  else (List.lookup j a.props).getD none

/-- Write v at slot j: an indexed update when 0 <= j < length, otherwise a
property write. (Writes at j >= length, which would grow a JavaScript array,
never occur in the shuffle: the random index j is at most the loop index.) -/
def jsSet (a : JSArr) (j : Int) (v : Option Nat) : JSArr :=
  if 0 ≤ j ∧ j < a.elems.length then { a with elems := a.elems.set j.toNat v }
  else { a with props := (j, v) :: a.props }

/-- The Fisher-Yates loop of seededShuffle, iterating i = k, k-1, ..., 1 with
j = Math.floor(rng.next() * (i + 1)) and a three-assignment swap of positions
i and j. The float arithmetic is exact: with |state| < 2^32 the numerator
state * (i+1) stays below 2^53, so Math.floor(state / 2^32 * (i+1)) equals
Int.fdiv (state * (i+1)) (2^32) (Math.floor rounds toward minus infinity). -/
def shuffleGo : JSArr → Int → Nat → JSArr × Int
  | a, s, 0 => (a, s)
  | a, s, k + 1 =>
    let s1 := lcgNext s
    let j := Int.fdiv (s1 * ((k : Int) + 2)) (2 ^ 32)
    let temp := jsGet a ((k : Int) + 1)
    let a1 := jsSet a ((k : Int) + 1) (jsGet a j)
    let a2 := jsSet a1 j temp
    shuffleGo a2 s1 k

/-- seededShuffle: copies the input array (the spread copies the indexed
slots only, so the copy starts with no out-of-range properties) and runs the
swap loop from index length-1 down to 1; returns the indexed slots of the
result together with the advanced RNG state. -/
def seededShuffle (arr : List (Option Nat)) (s : Int) : List (Option Nat) × Int :=
  let r := shuffleGo ⟨arr, []⟩ s (arr.length - 1)
  (r.1.elems, r.2)

/-- countInversions: pairs (i, j) with i < j, both slots defined and neither
holding the empty-tile value size*size-1, where grid[i] > grid[j]. -/
def countInversions : List (Option Nat) → Nat → Nat
  | [], _ => 0
  | x :: rest, size =>
    (match x with
      | none => 0
      | some v =>
        if v = size * size - 1 then 0
        else rest.countP (fun y => match y with
          | none => false
          | some w => decide (¬ w = size * size - 1) && decide (w < v))) +
    countInversions rest size

/-- Array.prototype.indexOf over the indexed slots: the first index whose
slot holds exactly the value v, and -1 when there is none (an undefined slot
never equals a number). -/
def jsIndexOf (l : List (Option Nat)) (v : Nat) : Int :=
  match l.findIdx? (fun x => x == some v) with
  | some k => (k : Int)
  | none => -1

/-- getEmptyRow: Math.floor(grid.indexOf(size*size-1) / size); the index is
-1 when the empty value is absent, and Math.floor rounds toward minus
infinity, hence Int.fdiv. -/
def getEmptyRow (grid : List (Option Nat)) (size : Nat) : Int :=
  Int.fdiv (jsIndexOf grid (size * size - 1)) size

/-- isSolvable as implemented: for odd size, inversions even; for even size,
(inversions + emptyRow) even (the === 0 test on a JavaScript remainder by 2
holds exactly when the sum is even, for either sign). -/
def isSolvable (grid : List (Option Nat)) (size : Nat) : Bool :=
  let inversions := countInversions grid size
  let emptyRow := getEmptyRow grid size
  if size % 2 = 1 then decide (inversions % 2 = 0)
  else decide (Int.tmod ((inversions : Int) + emptyRow) 2 = 0)

/-- The fallback grid of createShuffledPuzzle: the identity permutation with
the last two slots swapped, guarded as in the source on both reads being
defined. -/
def fallbackGrid (total : Nat) : List (Option Nat) :=
  let g := (List.range total).map some
  match g.getD (total - 1) none, g.getD (total - 2) none with
  | some last, some secondLast =>
    (g.set (total - 1) (some secondLast)).set (total - 2) (some last)
  | _, _ => g

/-- The retry loop of createShuffledPuzzle, with the number of attempts that
may still be accepted by the solvability check; when they are exhausted
(attempts > 100 in the source) the fallback grid is returned. The 101st
shuffle, which the source computes and immediately discards, is omitted: it
never reaches the result. -/
def shuffleLoop (size : Nat) : Nat → Int → List (Option Nat)
  | 0, _ => fallbackGrid (size * size)
  | k + 1, s =>
    let r := seededShuffle ((List.range (size * size)).map some) s
    if isSolvable r.1 size then r.1 else shuffleLoop size k r.2

/-- PuzzleState: the indexed slots of the grid array (out-of-range properties
a shuffled array may carry are not observable through the puzzle operations,
which read the slots or copy the array), the emptyIndex as computed (possibly
-1 from indexOf), and the grid size. -/
structure PuzzleState where
  grid : List (Option Nat)
  emptyIndex : Int
  size : Nat
deriving DecidableEq

/-- createShuffledPuzzle: run the shuffle-until-solvable loop (at most 100
accepted attempts, then the fallback) and locate the empty-tile value. -/
def createShuffledPuzzle (size : Nat) (seed : Int) : PuzzleState :=
  let total := size * size
  let grid := shuffleLoop size 100 seed
  ⟨grid, jsIndexOf grid (total - 1), size⟩

/-- Read slot j of an array copy that has no out-of-range properties:
undefined for any out-of-range index. -/
def listRead (l : List (Option Nat)) (j : Int) : Option Nat :=
  if 0 ≤ j ∧ j < l.length then l.getD j.toNat none else none

/-- Write v at slot j when it is in range; an out-of-range write on the fresh
copy inside makeMove is unreachable, because both reads were defined. -/
def listWrite (l : List (Option Nat)) (j : Int) (v : Option Nat) : List (Option Nat) :=
  if 0 ≤ j ∧ j < l.length then l.set j.toNat v else l

/-- getAdjacentIndices: row = Math.floor(index / size) (fdiv), col =
index % size (tmod), then the guarded pushes Up, Down, Left, Right in the
order of the source. -/
def getAdjacentIndices (index : Int) (size : Nat) : List Int :=
  let row := Int.fdiv index size
  let col := Int.tmod index size
  (if 0 < row then [index - (size : Int)] else []) ++
  (if row < (size : Int) - 1 then [index + (size : Int)] else []) ++
  (if 0 < col then [index - 1] else []) ++
  (if col < (size : Int) - 1 then [index + 1] else [])

/-- isValidMove: the tile index is movable when its adjacency list contains
the empty index. -/
def isValidMove (p : PuzzleState) (tileIndex : Int) : Bool :=
  (getAdjacentIndices tileIndex p.size).contains p.emptyIndex

/-- makeMove: null for an invalid move; otherwise copy the grid, and if
either read at tileIndex or emptyIndex is undefined return null, else swap
the two slots, the moved-from index becoming the new emptyIndex. -/
def makeMove (p : PuzzleState) (tileIndex : Int) : Option PuzzleState :=
  if isValidMove p tileIndex then
    match listRead p.grid tileIndex, listRead p.grid p.emptyIndex with
    | some tileValue, some emptyValue =>
      some ⟨listWrite (listWrite p.grid tileIndex (some emptyValue)) p.emptyIndex (some tileValue),
            tileIndex, p.size⟩
    | _, _ => none
  else none

/-- isSolved: every slot holds exactly its own index. -/
def isSolved (p : PuzzleState) : Bool :=
  p.grid.enum.all (fun iv => iv.2 == some iv.1)

/-- Orthogonal adjacency of two cell indices on the size-by-size grid, as the
claims state it: both indices in range and one step apart, either vertically
(difference exactly size) or horizontally (difference exactly 1 within the
same row); any out-of-range index is adjacent to nothing. -/
def isAdjacent (t e : Int) (size : Nat) : Prop :=
  0 ≤ t ∧ t < ((size * size : Nat) : Int) ∧ 0 ≤ e ∧ e < ((size * size : Nat) : Int) ∧
    (|t - e| = (size : Int) ∨ (|t - e| = 1 ∧ Int.fdiv t size = Int.fdiv e size))

instance (t e : Int) (size : Nat) : Decidable (isAdjacent t e size) := by
  unfold isAdjacent; infer_instance

/-- The PuzzleState invariant of the spec: the grid slots are a permutation
of 0..N*N-1 (in particular all defined) and the slot at emptyIndex holds the
empty-tile value N*N-1. -/
def invariant (p : PuzzleState) : Prop :=
  p.grid.Perm ((List.range (p.size * p.size)).map some) ∧
    listRead p.grid p.emptyIndex = some (p.size * p.size - 1)

instance (p : PuzzleState) : Decidable (invariant p) := by
  unfold invariant; infer_instance

/-- The candidate tiles of getNextMoveHint, pushed in the order Up, Down,
Left, Right around the empty index. -/
def hintCandidates (p : PuzzleState) : List Int :=
  let row := Int.fdiv p.emptyIndex p.size
  let col := Int.tmod p.emptyIndex p.size
  (if 0 < row then [p.emptyIndex - (p.size : Int)] else []) ++
  (if row < (p.size : Int) - 1 then [p.emptyIndex + (p.size : Int)] else []) ++
  (if 0 < col then [p.emptyIndex - 1] else []) ++
  (if col < (p.size : Int) - 1 then [p.emptyIndex + 1] else [])

/-- The score getNextMoveHint gives a candidate: Manhattan distance of the
tile to its target before the move minus after it (none when the slot is
undefined, in which case the score in the source is NaN and every comparison
against it is false, so the candidate is skipped). -/
def hintScore (p : PuzzleState) (t : Int) : Option Int :=
  (listRead p.grid t).map fun v =>
    let s : Nat := p.size
    let currentRow := Int.fdiv t s
    let currentCol := Int.tmod t s
    let targetRow := Int.fdiv (v : Int) s
    let targetCol := Int.tmod (v : Int) s
    let newRow := Int.fdiv p.emptyIndex s
    let newCol := Int.tmod p.emptyIndex s
    (|currentRow - targetRow| + |currentCol - targetCol|) -
      (|newRow - targetRow| + |newCol - targetCol|)

/-- One iteration of the selection loop of getNextMoveHint: keep the candidate
only when its score strictly exceeds the best so far (initially -1). -/
def hintStep (p : PuzzleState) (acc : Option Int × Int) (t : Int) : Option Int × Int :=
  match hintScore p t with
  | none => acc
  | some score => if acc.2 < score then (some t, score) else acc

/-- getNextMoveHint: fold the selection step over the candidates with
bestTile = null and bestScore = -1. -/
def getNextMoveHint (p : PuzzleState) : Option Int :=
  ((hintCandidates p).foldl (hintStep p) (none, -1)).1

/-- The running maximum of the defined candidate scores, folded from a given
starting point; defined on the specification side to state what the selection
loop returns. -/
def hintMaxFrom (p : PuzzleState) (s0 : Int) (l : List Int) : Int :=
  l.foldl (fun m t => match hintScore p t with
    | none => m
    | some score => max m score) s0

/-- The maximum candidate score, with the same -1 starting point the
selection loop uses. -/
def maxHintScore (p : PuzzleState) : Int :=
  hintMaxFrom p (-1) (hintCandidates p)

/-- A leaderboard entry as stored: username, time in seconds, move count,
difficulty and date. -/
structure LBEntry where
  username : String
  time : Int
  moves : Int
  difficulty : Int
  date : String
deriving DecidableEq

/-- The sort comparator of the submit handler (time ascending, then moves
ascending) as the total preorder it induces. Array.prototype.sort is stable
(ES2019), and the output of a stable sort under a total preorder is unique,
so any stable sort models it exactly; insertionSort below is stable. -/
def lexLeP (a b : LBEntry) : Prop :=
  a.time < b.time ∨ (a.time = b.time ∧ a.moves ≤ b.moves)

instance : DecidableRel lexLeP := fun a b => by unfold lexLeP; infer_instance

instance : IsTrans LBEntry lexLeP := ⟨by intro a b c hab hbc; unfold lexLeP at *; omega⟩

instance : IsTotal LBEntry lexLeP := ⟨by intro a b; unfold lexLeP; omega⟩

/-- Strictly better score: lower time, or equal time with fewer moves (the
comparison the handler uses both for replacement and for rank counting). -/
def strictlyBetter (a b : LBEntry) : Bool :=
  decide (a.time < b.time) || (decide (a.time = b.time) && decide (a.moves < b.moves))

/-- Result of a submission: the table as stored afterwards, the reported
rank, and whether the existing better score was retained. -/
structure SubmitResult where
  table : List LBEntry
  rank : Int
  retained : Bool
deriving DecidableEq

/-- The sort-truncate-rank tail of the submit handler, run after an append or
replacement: sort by (time, moves), keep the first 100 entries, and report
findIndex of the submitter plus one (0 when truncated out, since findIndex
yields -1 there). -/
def finalizeSubmit (table : List LBEntry) (username : String) : SubmitResult :=
  let sorted := List.insertionSort lexLeP table
  let capped := sorted.take 100
  let rank : Int :=
    match capped.findIdx? (fun e => e.username == username) with
    | some k => (k : Int) + 1
    | none => 0
  ⟨capped, rank, false⟩

/-- The core of the submit-score handler between reading and writing the
stored table: find the existing entry of the submitter, replace it only on a
strictly better score, append when absent, and on a retained existing score
return the unchanged table with rank = 1 + the number of entries strictly
better than the existing one. -/
def submitCore (leaderboard : List LBEntry) (entry : LBEntry) : SubmitResult :=
  match leaderboard.findIdx? (fun e => e.username == entry.username) with
  | some i =>
    match leaderboard[i]? with
    | none => finalizeSubmit (leaderboard ++ [entry]) entry.username
    | some existing =>
      if strictlyBetter entry existing then
        finalizeSubmit (leaderboard.set i entry) entry.username
      else
        ⟨leaderboard, ((leaderboard.countP (fun e => strictlyBetter e existing) : Nat) : Int) + 1,
         true⟩
  | none => finalizeSubmit (leaderboard ++ [entry]) entry.username

/-- Outcome of the submit-score endpoint as observable in its HTTP response. -/
inductive SubmitResponse where
  | missingFields
  | noUsername
  | success (rank : Int)
deriving DecidableEq

/-- The POST /api/submit-score endpoint after JSON parsing: the only
validation is the JavaScript truthiness test (!time || !moves || !difficulty),
which for numbers rejects exactly 0; then the stored table for the submitted
difficulty (whatever its value) is read, updated through submitCore and, when
not retained, written back. The second component is the table as stored after
the request. -/
def submitScoreEndpoint (time moves difficulty : Int) (username : Option String)
    (date : String) (table : List LBEntry) : SubmitResponse × List LBEntry :=
  if time = 0 ∨ moves = 0 ∨ difficulty = 0 then (.missingFields, table)
  else
    match username with
    | none => (.noUsername, table)
    | some u =>
      let r := submitCore table ⟨u, time, moves, difficulty, date⟩
      (.success r.rank, r.table)

/-- The GET /api/leaderboard endpoint after parsing its query parameters:
difficulty outside the set 3, 4, 5 is rejected before the store is consulted;
otherwise the stored table (or an empty one) is returned. -/
def getLeaderboardEndpoint (difficulty : Int) (stored : Option (List LBEntry)) :
    Except String (List LBEntry) :=
  if difficulty ≠ 3 ∧ difficulty ≠ 4 ∧ difficulty ≠ 5 then
    .error "Invalid difficulty. Must be 3, 4, or 5"
  else .ok (stored.getD [])

/-- The table right after the replacement-or-append branch of submit and
before sorting, following the wording of the spec (replace only on a strictly
better pair, append when absent); none when the submission is rejected
because the existing score is at least as good. -/
def specInsertedTable (leaderboard : List LBEntry) (entry : LBEntry) :
    Option (List LBEntry) :=
  match leaderboard.findIdx? (fun e => e.username == entry.username) with
  | some i =>
    match leaderboard[i]? with
    | none => some (leaderboard ++ [entry])
    | some existing =>
      if strictlyBetter entry existing then some (leaderboard.set i entry) else none
  | none => some (leaderboard ++ [entry])

/-! Helper lemmas about list updates: a three-assignment swap of two
in-range positions permutes the list. -/

theorem set_getD_self {α : Type} : ∀ (l : List α) (i : Nat) (d : α),
    i < l.length → l.set i (l.getD i d) = l
  | [], i, d, h => absurd h (Nat.not_lt_zero i)
  | x :: t, 0, d, _ => rfl
  | x :: t, i + 1, d, h => by
    have ih := set_getD_self t i d (Nat.lt_of_succ_lt_succ h)
    show x :: t.set i ((x :: t).getD (i + 1) d) = x :: t
    rw [List.getD_cons_succ, ih]

theorem cons_set_perm {α : Type} : ∀ (t : List α) (m : Nat) (a d : α),
    m < t.length → (t.getD m d :: t.set m a).Perm (a :: t)
  | [], m, a, d, h => absurd h (Nat.not_lt_zero m)
  | y :: s, 0, a, d, _ => List.Perm.swap a y s
  | y :: s, m + 1, a, d, h => by
    have hm : m < s.length := Nat.lt_of_succ_lt_succ (by simpa using h)
    have step1 : (s.getD m d :: y :: s.set m a).Perm (y :: s.getD m d :: s.set m a) :=
      List.Perm.swap y (s.getD m d) (s.set m a)
    have step2 : (y :: s.getD m d :: s.set m a).Perm (y :: a :: s) :=
      List.Perm.cons y (cons_set_perm s m a d hm)
    have step3 : (y :: a :: s).Perm (a :: y :: s) := List.Perm.swap a y s
    simpa [List.set, List.getD_cons_succ] using (step1.trans step2).trans step3

theorem swap_set_perm {α : Type} : ∀ (l : List α) (i j : Nat) (d : α),
    i < l.length → j < l.length → ((l.set i (l.getD j d)).set j (l.getD i d)).Perm l
  | [], i, _, _, hi, _ => absurd hi (Nat.not_lt_zero i)
  | x :: t, 0, 0, d, _, _ => List.Perm.refl _
  | x :: t, 0, m + 1, d, _, hj => by
    have hm : m < t.length := Nat.lt_of_succ_lt_succ hj
    have goal := cons_set_perm t m x d hm
    show (t.getD m d :: t.set m ((x :: t).getD 0 d)).Perm (x :: t)
    rw [List.getD_cons_zero]
    exact goal
  | x :: t, k + 1, 0, d, hi, _ => by
    have hk : k < t.length := Nat.lt_of_succ_lt_succ hi
    have goal := cons_set_perm t k x d hk
    show ((x :: t.set k ((x :: t).getD 0 d)).set 0 (t.getD k d)).Perm (x :: t)
    rw [List.getD_cons_zero]
    exact goal
  | x :: t, k + 1, m + 1, d, hi, hj => by
    have hk : k < t.length := Nat.lt_of_succ_lt_succ hi
    have hm : m < t.length := Nat.lt_of_succ_lt_succ hj
    have := List.Perm.cons x (swap_set_perm t k m d hk hm)
    show (x :: (t.set k ((x :: t).getD (m + 1) d)).set m ((x :: t).getD (k + 1) d)).Perm (x :: t)
    rw [List.getD_cons_succ, List.getD_cons_succ]
    exact this

/-! Bounds for the RNG state and the derived random index. -/

theorem lcgNext_nonneg {s : Int} (h : 0 ≤ s) : 0 ≤ lcgNext s := by
  unfold lcgNext
  exact Int.tmod_nonneg _ (by nlinarith)

theorem lcgNext_lt (s : Int) : lcgNext s < 2 ^ 32 := by
  unfold lcgNext
  exact Int.tmod_lt_of_pos _ (by norm_num)

theorem randIndex_bounds {s1 n : Int} (hn : 0 < n) (h0 : 0 ≤ s1) (h1 : s1 < 2 ^ 32) :
    0 ≤ Int.fdiv (s1 * n) (2 ^ 32) ∧ Int.fdiv (s1 * n) (2 ^ 32) < n := by
  rw [Int.fdiv_eq_ediv _ (by norm_num)]
  constructor
  · exact Int.ediv_nonneg (by positivity) (by norm_num)
  · refine Int.ediv_lt_of_lt_mul (by norm_num) ?_
    calc s1 * n < 2 ^ 32 * n := mul_lt_mul_of_pos_right h1 hn
      _ = n * 2 ^ 32 := by ring

theorem jsGet_inRange (a : JSArr) (j : Int) (h0 : 0 ≤ j) (h1 : j < (a.elems.length : Int)) :
    jsGet a j = a.elems.getD j.toNat none := by
  unfold jsGet
  rw [if_pos ⟨h0, h1⟩]

theorem jsSet_inRange (a : JSArr) (j : Int) (v : Option Nat) (h0 : 0 ≤ j)
    (h1 : j < (a.elems.length : Int)) :
    jsSet a j v = { a with elems := a.elems.set j.toNat v } := by
  unfold jsSet
  rw [if_pos ⟨h0, h1⟩]

theorem shuffleGo_succ (a : JSArr) (s : Int) (k : Nat) :
    shuffleGo a s (k + 1) =
      shuffleGo
        (jsSet (jsSet a ((k : Int) + 1)
          (jsGet a (Int.fdiv (lcgNext s * ((k : Int) + 2)) (2 ^ 32))))
          (Int.fdiv (lcgNext s * ((k : Int) + 2)) (2 ^ 32)) (jsGet a ((k : Int) + 1)))
        (lcgNext s) k := rfl

theorem shuffleGo_spec : ∀ (k : Nat) (a : JSArr) (s : Int), 0 ≤ s → k < a.elems.length →
    ((shuffleGo a s k).1.elems).Perm a.elems ∧ 0 ≤ (shuffleGo a s k).2
  | 0, a, s, hs, _ => ⟨List.Perm.refl _, hs⟩
  | k + 1, a, s, hs, hk => by
    have hs1 : 0 ≤ lcgNext s := lcgNext_nonneg hs
    have hs1lt : lcgNext s < 2 ^ 32 := lcgNext_lt s
    obtain ⟨hj0, hjlt⟩ := randIndex_bounds (n := (k : Int) + 2) (by positivity) hs1 hs1lt
    have hjnat : (Int.fdiv (lcgNext s * ((k : Int) + 2)) (2 ^ 32)).toNat < a.elems.length := by
      omega
    have hknat : ((k : Int) + 1).toNat = k + 1 := by omega
    rw [shuffleGo_succ]
    have hki : ((k : Int) + 1) < (a.elems.length : Int) := by
      exact_mod_cast Nat.cast_lt.mpr hk
    have hji : Int.fdiv (lcgNext s * ((k : Int) + 2)) (2 ^ 32) < (a.elems.length : Int) := by
      omega
    rw [jsSet_inRange a _ _ (by positivity) hki]
    rw [jsGet_inRange a _ hj0 hji, jsGet_inRange a _ (by positivity) hki]
    rw [jsSet_inRange _ _ _ hj0 (by simpa using hji)]
    set j := (Int.fdiv (lcgNext s * ((k : Int) + 2)) (2 ^ 32)).toNat with hjdef
    have hswap :
        ((a.elems.set ((k : Int) + 1).toNat (a.elems.getD j none)).set j
          (a.elems.getD ((k : Int) + 1).toNat none)).Perm a.elems := by
      rw [hknat]
      exact swap_set_perm a.elems (k + 1) j none hk hjnat
    have hlen :
        ((a.elems.set ((k : Int) + 1).toNat (a.elems.getD j none)).set j
          (a.elems.getD ((k : Int) + 1).toNat none)).length = a.elems.length := by
      simp
    obtain ⟨ih1, ih2⟩ := shuffleGo_spec k
      ⟨(a.elems.set ((k : Int) + 1).toNat (a.elems.getD j none)).set j
        (a.elems.getD ((k : Int) + 1).toNat none), a.props⟩
      (lcgNext s) hs1 (by rw [hlen]; omega)
    exact ⟨ih1.trans hswap, ih2⟩

theorem seededShuffle_spec (arr : List (Option Nat)) (s : Int) (hs : 0 ≤ s) :
    ((seededShuffle arr s).1).Perm arr ∧ 0 ≤ (seededShuffle arr s).2 := by
  unfold seededShuffle
  match arr with
  | [] => exact ⟨List.Perm.refl _, hs⟩
  | x :: t =>
    have h := shuffleGo_spec (x :: t).length.pred ⟨x :: t, []⟩ s hs (by simp)
    simpa using h

theorem shuffleLoop_succ (size : Nat) (k : Nat) (s : Int) :
    shuffleLoop size (k + 1) s =
      (if isSolvable (seededShuffle ((List.range (size * size)).map some) s).1 size then
        (seededShuffle ((List.range (size * size)).map some) s).1
      else shuffleLoop size k (seededShuffle ((List.range (size * size)).map some) s).2) := rfl

theorem shuffleLoop_spec (size : Nat)
    (hfb : (fallbackGrid (size * size)).Perm ((List.range (size * size)).map some)) :
    ∀ (k : Nat) (s : Int), 0 ≤ s →
      (shuffleLoop size k s).Perm ((List.range (size * size)).map some) ∧
        (isSolvable (shuffleLoop size k s) size = true ∨
          shuffleLoop size k s = fallbackGrid (size * size))
  | 0, _, _ => ⟨hfb, Or.inr rfl⟩
  | k + 1, s, hs => by
    obtain ⟨hperm, hs2⟩ := seededShuffle_spec ((List.range (size * size)).map some) s hs
    rw [shuffleLoop_succ]
    split
    · exact ⟨hperm, Or.inl (by assumption)⟩
    · exact shuffleLoop_spec size hfb k _ hs2

theorem createShuffledPuzzle_grid (size : Nat) (hsize : size = 3 ∨ size = 4 ∨ size = 5)
    (seed : Int) (hseed : 0 ≤ seed) :
    ((createShuffledPuzzle size seed).grid).Perm ((List.range (size * size)).map some) ∧
      (isSolvable (createShuffledPuzzle size seed).grid size = true ∨
        (createShuffledPuzzle size seed).grid = fallbackGrid (size * size)) := by
  have hfb : (fallbackGrid (size * size)).Perm ((List.range (size * size)).map some) := by
    rcases hsize with h | h | h <;> subst h <;> decide
  exact shuffleLoop_spec size hfb 100 seed hseed

theorem listRead_jsIndexOf {l : List (Option Nat)} {v : Nat} (h : some v ∈ l) :
    listRead l (jsIndexOf l v) = some v := by
  have hex : ∃ x ∈ l, (x == some v) = true := ⟨some v, h, by simp⟩
  have hfi := List.findIdx?_eq_some_of_exists hex
  have hlt : l.findIdx (fun x => x == some v) < l.length :=
    (List.findIdx?_eq_some_iff_findIdx_eq.mp hfi).1
  have helem := @List.findIdx_getElem _ (fun x => x == some v) l hlt
  have hidx : jsIndexOf l v = (l.findIdx (fun x => x == some v) : Int) := by
    simp [jsIndexOf, hfi]
  rw [hidx]
  unfold listRead
  rw [if_pos ⟨by positivity, by exact_mod_cast hlt⟩]
  have : ((l.findIdx (fun x => x == some v) : Int)).toNat = l.findIdx (fun x => x == some v) := by
    omega
  rw [this, List.getD_eq_getElem?_getD, List.getElem?_eq_getElem hlt]
  simpa using helem

theorem createShuffledPuzzle_invariant (size : Nat) (hsize : size = 3 ∨ size = 4 ∨ size = 5)
    (seed : Int) (hseed : 0 ≤ seed) : invariant (createShuffledPuzzle size seed) := by
  obtain ⟨hperm, _⟩ := createShuffledPuzzle_grid size hsize seed hseed
  have htot : 0 < size * size := by rcases hsize with h | h | h <;> subst h <;> norm_num
  constructor
  · exact hperm
  · have hmem : some (size * size - 1) ∈ (createShuffledPuzzle size seed).grid := by
      rw [hperm.mem_iff]
      exact List.mem_map.mpr ⟨size * size - 1, List.mem_range.mpr (by omega), rfl⟩
    exact listRead_jsIndexOf hmem

/-! Adjacency: the guarded candidate list of the source versus the
mathematical orthogonal-adjacency predicate of the claims. -/

theorem mem_getAdjacentIndices {e t : Int} {size : Nat} :
    e ∈ getAdjacentIndices t size ↔
      ((0 < Int.fdiv t size ∧ e = t - size) ∨
       (Int.fdiv t size < (size : Int) - 1 ∧ e = t + size) ∨
       (0 < Int.tmod t size ∧ e = t - 1) ∨
       (Int.tmod t size < (size : Int) - 1 ∧ e = t + 1)) := by
  unfold getAdjacentIndices
  dsimp only
  generalize Int.fdiv t (size : Int) = row
  generalize Int.tmod t (size : Int) = col
  split_ifs with h1 h2 h3 h4 <;> (try simp_all [List.mem_append]) <;> omega

theorem contains_int_iff {l : List Int} {x : Int} : l.contains x = true ↔ x ∈ l :=
  List.elem_iff

theorem isValidMove_iff {p : PuzzleState} {t : Int} :
    isValidMove p t = true ↔ p.emptyIndex ∈ getAdjacentIndices t p.size := by
  unfold isValidMove
  exact contains_int_iff

theorem div_mod_repr {t : Int} {size : Nat} (hsz : 0 < size) (h0 : 0 ≤ t) :
    Int.fdiv t size = t / size ∧ Int.tmod t size = t % size ∧
      t = size * (t / size) + t % size ∧ 0 ≤ t % size ∧ t % size < size := by
  have hszi : (0 : Int) < (size : Int) := by exact_mod_cast hsz
  refine ⟨Int.fdiv_eq_ediv t (le_of_lt hszi), Int.tmod_eq_emod h0 (le_of_lt hszi), ?_, ?_, ?_⟩
  · have := Int.ediv_add_emod t (size : Int)
    linarith
  · exact Int.emod_nonneg t (ne_of_gt hszi)
  · exact Int.emod_lt_of_pos t hszi

theorem size_pos_of_inRange {t : Int} {size : Nat} (h0 : 0 ≤ t)
    (h1 : t < ((size * size : Nat) : Int)) : 0 < size := by
  rcases Nat.eq_zero_or_pos size with h | h
  · subst h
    norm_num at h1
    omega
  · exact h

theorem ediv_emod_of_repr {a n q r : Int} (hn : 0 < n) (ha : a = n * q + r) (h0 : 0 ≤ r)
    (h1 : r < n) : a / n = q ∧ a % n = r :=
  (Int.ediv_emod_unique hn).mpr ⟨by linarith, h0, h1⟩

theorem adjacent_of_mem {t e : Int} {size : Nat} (h0 : 0 ≤ t)
    (h1 : t < ((size * size : Nat) : Int)) (hmem : e ∈ getAdjacentIndices t size) :
    isAdjacent t e size := by
  have hsz : 0 < size := size_pos_of_inRange h0 h1
  have hszi : (0 : Int) < (size : Int) := by exact_mod_cast hsz
  obtain ⟨hfd, htm, hrepr, hr0, hrlt⟩ := div_mod_repr hsz h0
  have hNn : ((size * size : Nat) : Int) = (size : Int) * (size : Int) := by push_cast; ring
  rw [hNn] at h1
  have hq0 : 0 ≤ t / (size : Int) := Int.ediv_nonneg h0 (le_of_lt hszi)
  have hqlt : t / (size : Int) < (size : Int) := (Int.ediv_lt_iff_lt_mul hszi).mpr h1
  have hmul0 : 0 ≤ (size : Int) * (t / (size : Int)) :=
    mul_nonneg (le_of_lt hszi) hq0
  rcases mem_getAdjacentIndices.mp hmem with ⟨hg, he⟩ | ⟨hg, he⟩ | ⟨hg, he⟩ | ⟨hg, he⟩ <;>
    subst he
  · rw [hfd] at hg
    have hmul : (size : Int) * 1 ≤ (size : Int) * (t / (size : Int)) :=
      mul_le_mul_of_nonneg_left (by linarith) (le_of_lt hszi)
    refine ⟨h0, by rw [hNn]; linarith, by linarith, by rw [hNn]; linarith, Or.inl ?_⟩
    rw [show t - (t - (size : Int)) = (size : Int) from by ring,
      abs_of_nonneg (le_of_lt hszi)]
  · rw [hfd] at hg
    have hmul : (size : Int) * (t / (size : Int)) ≤ (size : Int) * ((size : Int) - 2) :=
      mul_le_mul_of_nonneg_left (by linarith) (le_of_lt hszi)
    refine ⟨h0, by rw [hNn]; linarith, by linarith, by rw [hNn]; nlinarith, Or.inl ?_⟩
    rw [show t - (t + (size : Int)) = -(size : Int) from by ring, abs_neg,
      abs_of_nonneg (le_of_lt hszi)]
  · rw [htm] at hg
    have hediv := ediv_emod_of_repr (a := t - 1) (n := (size : Int)) (q := t / (size : Int))
      (r := t % (size : Int) - 1) hszi (by linarith) (by linarith) (by linarith)
    refine ⟨h0, by rw [hNn]; linarith, by linarith, by rw [hNn]; linarith,
      Or.inr ⟨?_, ?_⟩⟩
    · rw [show t - (t - 1) = (1 : Int) from by ring, abs_one]
    · rw [hfd, Int.fdiv_eq_ediv (t - 1) (le_of_lt hszi), hediv.1]
  · rw [htm] at hg
    have hediv := ediv_emod_of_repr (a := t + 1) (n := (size : Int)) (q := t / (size : Int))
      (r := t % (size : Int) + 1) hszi (by linarith) (by linarith) (by linarith)
    have hmul : (size : Int) * (t / (size : Int)) ≤ (size : Int) * ((size : Int) - 1) :=
      mul_le_mul_of_nonneg_left (by linarith) (le_of_lt hszi)
    refine ⟨h0, by rw [hNn]; linarith, by linarith, by rw [hNn]; nlinarith,
      Or.inr ⟨?_, ?_⟩⟩
    · rw [show t - (t + 1) = (-1 : Int) from by ring, abs_neg, abs_one]
    · rw [hfd, Int.fdiv_eq_ediv (t + 1) (le_of_lt hszi), hediv.1]

theorem mem_of_adjacent {t e : Int} {size : Nat} (h : isAdjacent t e size) :
    e ∈ getAdjacentIndices t size := by
  obtain ⟨ht0, ht1, he0, he1, hcase⟩ := h
  have hsz : 0 < size := size_pos_of_inRange ht0 ht1
  have hszi : (0 : Int) < (size : Int) := by exact_mod_cast hsz
  obtain ⟨hfd, htm, hrepr, hr0, hrlt⟩ := div_mod_repr hsz ht0
  have hNn : ((size * size : Nat) : Int) = (size : Int) * (size : Int) := by push_cast; ring
  rw [hNn] at ht1 he1
  have hq0 : 0 ≤ t / (size : Int) := Int.ediv_nonneg ht0 (le_of_lt hszi)
  have hqlt : t / (size : Int) < (size : Int) := (Int.ediv_lt_iff_lt_mul hszi).mpr ht1
  apply mem_getAdjacentIndices.mpr
  rcases hcase with habs | ⟨habs, hrow⟩
  · rcases (abs_eq (le_of_lt hszi)).mp habs with hd | hd
    · refine Or.inl ⟨?_, by omega⟩
      rw [hfd]
      by_contra hc
      push_neg at hc
      have : (size : Int) * (t / (size : Int)) ≤ (size : Int) * 0 :=
        mul_le_mul_of_nonneg_left hc (le_of_lt hszi)
      linarith
    · refine Or.inr (Or.inl ⟨?_, by omega⟩)
      rw [hfd]
      by_contra hc
      push_neg at hc
      have : (size : Int) * ((size : Int) - 1) ≤ (size : Int) * (t / (size : Int)) :=
        mul_le_mul_of_nonneg_left hc (le_of_lt hszi)
      nlinarith
  · rcases (abs_eq (by norm_num : (0:Int) ≤ 1)).mp habs with hd | hd
    · refine Or.inr (Or.inr (Or.inl ⟨?_, by omega⟩))
      rw [htm]
      by_contra hc
      push_neg at hc
      have hreq : t % (size : Int) = 0 := le_antisymm hc hr0
      have hediv := ediv_emod_of_repr (a := t - 1) (n := (size : Int))
        (q := t / (size : Int) - 1) (r := (size : Int) - 1) hszi
        (by linear_combination hrepr + hreq) (by linarith) (by linarith)
      rw [hfd, Int.fdiv_eq_ediv e (le_of_lt hszi), show e = t - 1 from by omega,
        hediv.1] at hrow
      linarith
    · refine Or.inr (Or.inr (Or.inr ⟨?_, by omega⟩))
      rw [htm]
      by_contra hc
      push_neg at hc
      have hreq : t % (size : Int) = (size : Int) - 1 := le_antisymm (by linarith) hc
      have hediv := ediv_emod_of_repr (a := t + 1) (n := (size : Int))
        (q := t / (size : Int) + 1) (r := 0) hszi
        (by linear_combination hrepr + hreq) (by linarith) hszi
      rw [hfd, Int.fdiv_eq_ediv e (le_of_lt hszi), show e = t + 1 from by omega,
        hediv.1] at hrow
      linarith

theorem adjacent_symm {t e : Int} {size : Nat} (h : isAdjacent t e size) :
    isAdjacent e t size := by
  obtain ⟨ht0, ht1, he0, he1, hcase⟩ := h
  refine ⟨he0, he1, ht0, ht1, ?_⟩
  rcases hcase with habs | ⟨habs, hrow⟩
  · exact Or.inl (by rw [abs_sub_comm]; exact habs)
  · exact Or.inr ⟨by rw [abs_sub_comm]; exact habs, hrow.symm⟩

theorem adjacent_mem_ne {t x : Int} {size : Nat} (hmem : x ∈ getAdjacentIndices t size) :
    x ≠ t := by
  rcases mem_getAdjacentIndices.mp hmem with ⟨hg, he⟩ | ⟨hg, he⟩ | ⟨hg, he⟩ | ⟨hg, he⟩
  · rcases Nat.eq_zero_or_pos size with h | h
    · subst h
      simp [Int.fdiv_zero] at hg
    · have : (0:Int) < (size : Int) := by exact_mod_cast h
      omega
  · rcases Nat.eq_zero_or_pos size with h | h
    · subst h
      simp [Int.fdiv_zero] at hg
    · have : (0:Int) < (size : Int) := by exact_mod_cast h
      omega
  · omega
  · omega

/-! makeMove reductions. -/

theorem makeMove_of_invalid {p : PuzzleState} {t : Int} (h : isValidMove p t = false) :
    makeMove p t = none := by
  simp [makeMove, h]

theorem makeMove_of_read_none {p : PuzzleState} {t : Int} (h : listRead p.grid t = none) :
    makeMove p t = none := by
  unfold makeMove
  split
  · rw [h]
  · rfl

theorem makeMove_some {p : PuzzleState} {t : Int} (hv : isValidMove p t = true)
    {tv ev : Nat} (h1 : listRead p.grid t = some tv)
    (h2 : listRead p.grid p.emptyIndex = some ev) :
    makeMove p t =
      some ⟨listWrite (listWrite p.grid t (some ev)) p.emptyIndex (some tv), t, p.size⟩ := by
  unfold makeMove
  rw [if_pos hv, h1, h2]

theorem listRead_some_bounds {l : List (Option Nat)} {j : Int} {v : Nat}
    (h : listRead l j = some v) :
    0 ≤ j ∧ j < (l.length : Int) ∧ l.getD j.toNat none = some v := by
  unfold listRead at h
  split at h
  · next hc => exact ⟨hc.1, hc.2, h⟩
  · exact absurd h (by simp)

theorem listWrite_inRange {l : List (Option Nat)} {j : Int} (v : Option Nat) (h0 : 0 ≤ j)
    (h1 : j < (l.length : Int)) : listWrite l j v = l.set j.toNat v := by
  unfold listWrite
  rw [if_pos ⟨h0, h1⟩]

theorem listRead_inRange {l : List (Option Nat)} {j : Int} (h0 : 0 ≤ j)
    (h1 : j < (l.length : Int)) : listRead l j = l.getD j.toNat none := by
  unfold listRead
  rw [if_pos ⟨h0, h1⟩]

theorem grid_slot_defined {p : PuzzleState}
    (hperm : p.grid.Perm ((List.range (p.size * p.size)).map some)) {j : Int}
    (h0 : 0 ≤ j) (h1 : j < (p.grid.length : Int)) : ∃ v, listRead p.grid j = some v := by
  rw [listRead_inRange h0 h1]
  have hjl : j.toNat < p.grid.length := by omega
  rw [List.getD_eq_getElem?_getD, List.getElem?_eq_getElem hjl]
  have hmem : p.grid[j.toNat] ∈ p.grid := List.getElem_mem hjl
  rw [hperm.mem_iff] at hmem
  obtain ⟨v, -, hv⟩ := List.mem_map.mp hmem
  exact ⟨v, by simp [← hv]⟩

theorem makeMove_invariant (p p' : PuzzleState) (t : Int) (hinv : invariant p)
    (hmove : makeMove p t = some p') : invariant p' := by
  by_cases hv : isValidMove p t = true
  case neg =>
    rw [makeMove_of_invalid (by simpa using hv)] at hmove
    exact absurd hmove (by simp)
  case pos =>
  rcases h1 : listRead p.grid t with _ | tv
  · rw [makeMove_of_read_none h1] at hmove
    exact absurd hmove (by simp)
  rcases h2 : listRead p.grid p.emptyIndex with _ | ev
  · have hnone : makeMove p t = none := by simp [makeMove, hv, h1, h2]
    rw [hnone] at hmove
    exact absurd hmove (by simp)
  obtain ⟨ht0, htlen, htgetD⟩ := listRead_some_bounds h1
  obtain ⟨he0, helen, hegetD⟩ := listRead_some_bounds h2
  rw [makeMove_some hv h1 h2] at hmove
  have hp' : p' = ⟨listWrite (listWrite p.grid t (some ev)) p.emptyIndex (some tv),
      t, p.size⟩ := (Option.some_inj.mp hmove).symm
  subst hp'
  have hne : p.emptyIndex ≠ t := adjacent_mem_ne (isValidMove_iff.mp hv)
  rw [listWrite_inRange (some ev) ht0 htlen]
  rw [listWrite_inRange (some tv) he0 (by simpa using helen)]
  have hevval : ev = p.size * p.size - 1 := by
    have := hinv.2.symm.trans h2
    exact (Option.some_inj.mp this).symm
  constructor
  · show ((p.grid.set t.toNat (some ev)).set p.emptyIndex.toNat (some tv)).Perm
      ((List.range (p.size * p.size)).map some)
    have hswap := swap_set_perm p.grid t.toNat p.emptyIndex.toNat none (by omega) (by omega)
    rw [htgetD, hegetD] at hswap
    exact hswap.trans hinv.1
  · show listRead ((p.grid.set t.toNat (some ev)).set p.emptyIndex.toNat (some tv)) t =
      some (p.size * p.size - 1)
    rw [listRead_inRange ht0 (by simpa using htlen)]
    rw [List.getD_eq_getElem?_getD,
      List.getElem?_set_ne (show p.emptyIndex.toNat ≠ t.toNat by omega),
      List.getElem?_set_self (by omega)]
    simp [hevval]

theorem makeMove_none_of_not_adjacent (p : PuzzleState) (t : Int)
    (hlen : p.grid.length = p.size * p.size)
    (hnadj : ¬ isAdjacent t p.emptyIndex p.size) : makeMove p t = none := by
  by_cases hv : isValidMove p t = true
  · by_cases hin : 0 ≤ t ∧ t < ((p.size * p.size : Nat) : Int)
    · exact absurd (adjacent_of_mem hin.1 hin.2 (isValidMove_iff.mp hv)) hnadj
    · apply makeMove_of_read_none
      unfold listRead
      rw [if_neg (by rw [hlen]; exact hin)]
  · exact makeMove_of_invalid (by simpa using hv)

theorem double_swap_eq {g : List (Option Nat)} {t' e' : Nat} {T E : Option Nat}
    (ht : t' < g.length) (he : e' < g.length) (hne : e' ≠ t')
    (hT : g.getD t' none = T) (hE : g.getD e' none = E) :
    (((g.set t' E).set e' T).set e' E).set t' T = g := by
  rw [List.set_set, List.set_comm E E g (fun h => hne (h.symm)), List.set_set]
  have hT' : (g.set e' E).getD t' none = T := by
    rw [List.getD_eq_getElem?_getD, List.getElem?_set_ne hne, ← List.getD_eq_getElem?_getD, hT]
  have h1 : (g.set e' E).set t' T = g.set e' E := by
    rw [← hT']
    exact set_getD_self _ _ _ (by simpa using ht)
  rw [h1, ← hE]
  exact set_getD_self _ _ _ he

theorem move_and_back (p : PuzzleState) (t : Int) (hinv : invariant p)
    (hadj : isAdjacent t p.emptyIndex p.size) :
    ∃ p', makeMove p t = some p' ∧ p'.emptyIndex = t ∧
      ∃ p'', makeMove p' p.emptyIndex = some p'' ∧ p''.grid = p.grid ∧
        p''.emptyIndex = p.emptyIndex := by
  obtain ⟨hperm, hread_e⟩ := hinv
  have hlen : p.grid.length = p.size * p.size := by
    have := hperm.length_eq
    simpa using this
  obtain ⟨ht0, ht1, he0, he1, hcase⟩ := hadj
  have ht1' : t < (p.grid.length : Int) := by rw [hlen]; exact_mod_cast ht1
  have he1' : p.emptyIndex < (p.grid.length : Int) := by rw [hlen]; exact_mod_cast he1
  obtain ⟨tv, h1⟩ := grid_slot_defined hperm ht0 ht1'
  have hadjfull : isAdjacent t p.emptyIndex p.size := ⟨ht0, ht1, he0, he1, hcase⟩
  have hv : isValidMove p t = true := isValidMove_iff.mpr (mem_of_adjacent hadjfull)
  have hne : p.emptyIndex ≠ t := adjacent_mem_ne (isValidMove_iff.mp hv)
  obtain ⟨-, -, htgetD⟩ := listRead_some_bounds h1
  obtain ⟨-, -, hegetD⟩ := listRead_some_bounds hread_e
  have hmove1 := makeMove_some hv h1 hread_e
  rw [listWrite_inRange (some (p.size * p.size - 1)) ht0 ht1'] at hmove1
  rw [listWrite_inRange (some tv) he0 (by simpa using he1')] at hmove1
  refine ⟨_, hmove1, rfl, ?_⟩
  have hlen1 : ((p.grid.set t.toNat (some (p.size * p.size - 1))).set p.emptyIndex.toNat
      (some tv)).length = p.grid.length := by simp
  have hadj2 := adjacent_symm hadjfull
  have hv2 : isValidMove
      ⟨(p.grid.set t.toNat (some (p.size * p.size - 1))).set p.emptyIndex.toNat (some tv),
        t, p.size⟩ p.emptyIndex = true :=
    isValidMove_iff.mpr (mem_of_adjacent hadj2)
  have h1' : listRead ((p.grid.set t.toNat (some (p.size * p.size - 1))).set
      p.emptyIndex.toNat (some tv)) p.emptyIndex = some tv := by
    rw [listRead_inRange he0 (by rw [hlen1]; exact he1')]
    rw [List.getD_eq_getElem?_getD, List.getElem?_set_self (by simp; omega)]
    simp
  have h2' : listRead ((p.grid.set t.toNat (some (p.size * p.size - 1))).set
      p.emptyIndex.toNat (some tv)) t = some (p.size * p.size - 1) := by
    rw [listRead_inRange ht0 (by rw [hlen1]; exact ht1')]
    rw [List.getD_eq_getElem?_getD,
      List.getElem?_set_ne (show p.emptyIndex.toNat ≠ t.toNat by omega),
      List.getElem?_set_self (by omega)]
    simp
  have hmove2 := makeMove_some hv2 h1' h2'
  rw [listWrite_inRange (some (p.size * p.size - 1)) he0 (by rw [hlen1]; exact he1')] at hmove2
  rw [listWrite_inRange (some tv) ht0 (by simpa [hlen1] using ht1')] at hmove2
  refine ⟨_, hmove2, ?_, rfl⟩
  show ((((p.grid.set t.toNat (some (p.size * p.size - 1))).set p.emptyIndex.toNat
      (some tv)).set p.emptyIndex.toNat (some (p.size * p.size - 1))).set t.toNat
      (some tv)) = p.grid
  exact double_swap_eq (by omega) (by omega) (by omega) htgetD hegetD

/-! The hint selection loop: the fold keeps the first candidate whose score
strictly exceeds every earlier score and the -1 starting point, which is the
first candidate attaining the running maximum when that maximum exceeds the
starting point. -/

theorem hintMaxFrom_nil (p : PuzzleState) (s0 : Int) : hintMaxFrom p s0 [] = s0 := rfl

theorem hintMaxFrom_cons (p : PuzzleState) (s0 : Int) (t : Int) (l : List Int) :
    hintMaxFrom p s0 (t :: l) =
      hintMaxFrom p (match hintScore p t with | none => s0 | some sc => max s0 sc) l := rfl

theorem hintMaxFrom_le (p : PuzzleState) : ∀ (l : List Int) (s0 : Int),
    s0 ≤ hintMaxFrom p s0 l
  | [], s0 => le_refl s0
  | t :: l, s0 => by
    rw [hintMaxFrom_cons]
    rcases h : hintScore p t with _ | sc
    · exact hintMaxFrom_le p l s0
    · exact le_trans (le_max_left s0 sc) (hintMaxFrom_le p l (max s0 sc))

theorem hintFold_spec (p : PuzzleState) : ∀ (l : List Int) (b0 : Option Int) (s0 : Int),
    l.foldl (hintStep p) (b0, s0) =
      (if s0 < hintMaxFrom p s0 l then
        l.find? (fun t => hintScore p t == some (hintMaxFrom p s0 l))
      else b0, hintMaxFrom p s0 l)
  | [], b0, s0 => by simp [hintMaxFrom]
  | t :: l, b0, s0 => by
    rcases h : hintScore p t with _ | sc
    · have hstep : hintStep p (b0, s0) t = (b0, s0) := by simp [hintStep, h]
      have hM : hintMaxFrom p s0 (t :: l) = hintMaxFrom p s0 l := by
        rw [hintMaxFrom_cons, h]
      rw [List.foldl_cons, hstep, hintFold_spec p l b0 s0, hM]
      by_cases hc : s0 < hintMaxFrom p s0 l
      · rw [if_pos hc, if_pos hc, List.find?_cons_of_neg _ (by simp [h])]
      · rw [if_neg hc, if_neg hc]
    · by_cases hsc : s0 < sc
      · have hstep : hintStep p (b0, s0) t = (some t, sc) := by simp [hintStep, h, hsc]
        have hM : hintMaxFrom p s0 (t :: l) = hintMaxFrom p sc l := by
          rw [hintMaxFrom_cons, h]
          show hintMaxFrom p (max s0 sc) l = hintMaxFrom p sc l
          rw [max_eq_right (le_of_lt hsc)]
        rw [List.foldl_cons, hstep, hintFold_spec p l (some t) sc, hM]
        have hscle : sc ≤ hintMaxFrom p sc l := hintMaxFrom_le p l sc
        by_cases heq : sc = hintMaxFrom p sc l
        · rw [if_neg (by omega : ¬ sc < hintMaxFrom p sc l),
            if_pos (by omega : s0 < hintMaxFrom p sc l),
            List.find?_cons_of_pos _ (by simp [h, ← heq])]
        · have hlt : sc < hintMaxFrom p sc l := lt_of_le_of_ne hscle heq
          rw [if_pos hlt, if_pos (by omega),
            List.find?_cons_of_neg _ (by simp [h]; omega)]
      · have hstep : hintStep p (b0, s0) t = (b0, s0) := by simp [hintStep, h, hsc]
        have hM : hintMaxFrom p s0 (t :: l) = hintMaxFrom p s0 l := by
          rw [hintMaxFrom_cons, h]
          show hintMaxFrom p (max s0 sc) l = hintMaxFrom p s0 l
          rw [max_eq_left (by omega)]
        rw [List.foldl_cons, hstep, hintFold_spec p l b0 s0, hM]
        by_cases hc : s0 < hintMaxFrom p s0 l
        · rw [if_pos hc, if_pos hc, List.find?_cons_of_neg _ (by simp [h]; omega)]
        · rw [if_neg hc, if_neg hc]

/-! The submit handler branch that appends or replaces: it always runs the
sort-truncate-rank tail on the inserted table. -/

theorem submitCore_insert {table : List LBEntry} {entry : LBEntry} {L : List LBEntry}
    (h : specInsertedTable table entry = some L) :
    submitCore table entry = finalizeSubmit L entry.username := by
  unfold specInsertedTable at h
  unfold submitCore
  rcases hfind : table.findIdx? (fun e => e.username == entry.username) with _ | i <;>
    simp only [hfind] at h ⊢
  · obtain rfl := Option.some_inj.mp h
    rfl
  · rcases hget : table[i]? with _ | existing <;> simp only [hget] at h ⊢
    · obtain rfl := Option.some_inj.mp h
      rfl
    · by_cases hb : strictlyBetter entry existing = true
      · simp only [hb, if_true] at h ⊢
        obtain rfl := Option.some_inj.mp h
        rfl
      · rw [Bool.not_eq_true] at hb
        simp only [hb] at h
        exact absurd h (by simp)

/-! The claims. -/

/-- C1 (amended): for every nonnegative integer seed and every size in 3, 4,
5, createShuffledPuzzle returns a board that is a permutation of
0..size*size-1, and that board either satisfies isSolvable or is the fallback
grid (identity with the last two tiles swapped); for the odd sizes 3 and 5
the board always satisfies isSolvable. (As stated over all integer seeds the
claim is false: a negative seed can corrupt the board, see the
counterexample; and for size 4 the fallback board fails isSolvable, see C2.) -/
theorem claim1_create_solvable_perm (size : Nat) (hsize : size = 3 ∨ size = 4 ∨ size = 5)
    (seed : Int) (hseed : 0 ≤ seed) :
    ((createShuffledPuzzle size seed).grid).Perm ((List.range (size * size)).map some) ∧
      (isSolvable (createShuffledPuzzle size seed).grid size = true ∨
        (createShuffledPuzzle size seed).grid = fallbackGrid (size * size)) ∧
      (size % 2 = 1 → isSolvable (createShuffledPuzzle size seed).grid size = true) := by
  obtain ⟨hperm, hsolv⟩ := createShuffledPuzzle_grid size hsize seed hseed
  refine ⟨hperm, hsolv, ?_⟩
  intro hodd
  rcases hsolv with h | h
  · exact h
  · rw [h]
    rcases hsize with hs | hs | hs <;> subst hs
    · decide
    · norm_num at hodd
    · decide

/-- C1 counterexample: at seed -12345 and size 3 the negative RNG states
drive the random swap index negative, the swapped-in values land in object
properties rather than array slots, and the returned board keeps undefined
slots: it is not a permutation of 0..8 (the shuffle loop still accepted it,
because countInversions skips undefined slots). -/
theorem claim1_counterexample :
    ¬ ((createShuffledPuzzle 3 (-12345)).grid).Perm ((List.range 9).map some) := by
  decide

/-- C1 witness: size 3 with seed 0. -/
theorem claim1_witness :
    ((3:Nat) = 3 ∨ (3:Nat) = 4 ∨ (3:Nat) = 5) ∧ (0:Int) ≤ 0 ∧
      (((createShuffledPuzzle 3 0).grid).Perm ((List.range (3 * 3)).map some) ∧
        (isSolvable (createShuffledPuzzle 3 0).grid 3 = true ∨
          (createShuffledPuzzle 3 0).grid = fallbackGrid (3 * 3)) ∧
        ((3:Nat) % 2 = 1 → isSolvable (createShuffledPuzzle 3 0).grid 3 = true)) :=
  ⟨Or.inl rfl, by decide, claim1_create_solvable_perm 3 (Or.inl rfl) 0 (by decide)⟩

/-- C2: evaluating the code at the failing input: the fallback board for
size 4 has 0 inversions and empty row 3, and the implemented even-size test
(sum even) rejects it, contradicting the claim, the doc comment of
isSolvable (which calls for an odd sum on even sizes) and the actual
solvability of a board one slide away from solved; sizes 3 and 5 pass. -/
theorem claim2_fallback_solvability :
    isSolvable (fallbackGrid 16) 4 = false ∧
      countInversions (fallbackGrid 16) 4 = 0 ∧ getEmptyRow (fallbackGrid 16) 4 = 3 ∧
      isSolvable (fallbackGrid 9) 3 = true ∧ isSolvable (fallbackGrid 25) 5 = true := by
  decide

/-- C3: for any state whose grid has the size*size slots of the data model,
makeMove on a tile index that is not orthogonally adjacent to the empty index
(including every out-of-range index, which is adjacent to nothing) returns
the invalid-move signal null; the embedding is pure, the input board is
returned untouched by construction. -/
theorem claim3_invalid_move_null (p : PuzzleState) (t : Int)
    (hlen : p.grid.length = p.size * p.size)
    (hnadj : ¬ isAdjacent t p.emptyIndex p.size) : makeMove p t = none :=
  makeMove_none_of_not_adjacent p t hlen hnadj

/-- C3 witness: the solved 3x3 state and the non-adjacent corner tile 0; the
out-of-range index -1 is likewise rejected. -/
theorem claim3_witness :
    ((⟨(List.range 9).map some, 8, 3⟩ : PuzzleState).grid.length =
      (⟨(List.range 9).map some, 8, 3⟩ : PuzzleState).size *
        (⟨(List.range 9).map some, 8, 3⟩ : PuzzleState).size) ∧
      ¬ isAdjacent 0 (8:Int) 3 ∧ ¬ isAdjacent (-1) (8:Int) 3 ∧
      makeMove ⟨(List.range 9).map some, 8, 3⟩ 0 = none ∧
      makeMove ⟨(List.range 9).map some, 8, 3⟩ (-1) = none :=
  ⟨by decide, by decide, by decide,
   claim3_invalid_move_null ⟨(List.range 9).map some, 8, 3⟩ 0 (by decide) (by decide),
   claim3_invalid_move_null ⟨(List.range 9).map some, 8, 3⟩ (-1) (by decide) (by decide)⟩

/-- C4 (amended): the PuzzleState invariant (the grid is a permutation of
0..N*N-1 and the slot at emptyIndex holds N*N-1) holds for every state
createShuffledPuzzle returns for a nonnegative seed and size in 3, 4, 5, and
makeMove preserves it unconditionally. (Over all integer seeds the creation
half is false, see the counterexample.) -/
theorem claim4_invariant :
    (∀ (size : Nat), (size = 3 ∨ size = 4 ∨ size = 5) → ∀ (seed : Int), 0 ≤ seed →
      invariant (createShuffledPuzzle size seed)) ∧
    (∀ (p p' : PuzzleState) (t : Int), invariant p → makeMove p t = some p' →
      invariant p') :=
  ⟨fun size hsize seed hseed => createShuffledPuzzle_invariant size hsize seed hseed,
   fun p p' t hinv hmove => makeMove_invariant p p' t hinv hmove⟩

/-- C4 counterexample: at seed -12345 and size 3 the created state violates
the invariant (its board is not a permutation of 0..8 and its emptyIndex is
-1, where no slot holds the empty value 8). -/
theorem claim4_counterexample : ¬ invariant (createShuffledPuzzle 3 (-12345)) := by
  decide

/-- C4 witness: creation at seed 0 size 3, and preservation across the valid
move of tile 5 on the solved board. -/
theorem claim4_witness :
    invariant (createShuffledPuzzle 3 0) ∧
      invariant (⟨[some 0, some 1, some 2, some 3, some 4, some 8, some 6, some 7, some 5],
        5, 3⟩ : PuzzleState) :=
  ⟨claim4_invariant.1 3 (Or.inl rfl) 0 (by decide),
   claim4_invariant.2 ⟨(List.range 9).map some, 8, 3⟩ _ 5 (by decide) (by decide)⟩

/-- C7: from any state satisfying the invariant, a valid move of the tile at
an index t orthogonally adjacent to the empty index succeeds, and moving the
same tile back (tile index = the old empty index) succeeds and restores the
original board with the empty index back where it was. -/
theorem claim7_move_inverse (p : PuzzleState) (t : Int) (hinv : invariant p)
    (hadj : isAdjacent t p.emptyIndex p.size) :
    ∃ p', makeMove p t = some p' ∧ p'.emptyIndex = t ∧
      ∃ p'', makeMove p' p.emptyIndex = some p'' ∧ p''.grid = p.grid ∧
        p''.emptyIndex = p.emptyIndex :=
  move_and_back p t hinv hadj

/-- C7 witness: the solved 3x3 state and the adjacent tile 5. -/
theorem claim7_witness :
    invariant (⟨(List.range 9).map some, 8, 3⟩ : PuzzleState) ∧
      isAdjacent 5 (8:Int) 3 ∧
      (∃ p', makeMove ⟨(List.range 9).map some, 8, 3⟩ 5 = some p' ∧ p'.emptyIndex = 5 ∧
        ∃ p'', makeMove p' 8 = some p'' ∧ p''.grid = (List.range 9).map some ∧
          p''.emptyIndex = 8) :=
  ⟨by decide, by decide,
   claim7_move_inverse ⟨(List.range 9).map some, 8, 3⟩ 5 (by decide) (by decide)⟩

/-- C8 counterexample: on the solved 3x3 board the hint candidates are the
tiles at indices 5 and 7, both scoring -1, so the tile with the maximum
score under the claimed tie-breaking is 5; yet getNextMoveHint returns null,
because the selection loop starts at bestScore = -1 and only accepts a
strictly greater score. -/
theorem claim8_counterexample :
    getNextMoveHint ⟨(List.range 9).map some, 8, 3⟩ = none ∧
      hintCandidates ⟨(List.range 9).map some, 8, 3⟩ = [5, 7] ∧
      hintScore ⟨(List.range 9).map some, 8, 3⟩ 5 = some (-1) ∧
      hintScore ⟨(List.range 9).map some, 8, 3⟩ 7 = some (-1) := by
  decide

/-- C8 (amended): getNextMoveHint returns the first candidate, in the
iteration order up, down, left, right, whose score equals the maximum
candidate score, provided that maximum exceeds -1; when every candidate
scores at most -1 (or reads an undefined slot), it returns null. -/
theorem claim8_hint_spec (p : PuzzleState) :
    getNextMoveHint p =
      if -1 < maxHintScore p then
        (hintCandidates p).find? (fun t => hintScore p t == some (maxHintScore p))
      else none := by
  unfold getNextMoveHint maxHintScore
  rw [hintFold_spec p (hintCandidates p) none (-1)]

/-- C5: when the table already holds an entry for the submitting username
(found by findIndex), submit replaces it exactly when the new (time, moves)
pair is lexicographically strictly smaller; otherwise the table is returned
unchanged with rank 1 + the number of entries strictly better than the
existing entry. -/
theorem claim5_resubmission (table : List LBEntry) (entry existing : LBEntry) (i : Nat)
    (hfind : table.findIdx? (fun e => e.username == entry.username) = some i)
    (hget : table[i]? = some existing) :
    (strictlyBetter entry existing = false →
      submitCore table entry =
        ⟨table, ((table.countP (fun e => strictlyBetter e existing) : Nat) : Int) + 1,
          true⟩) ∧
    (strictlyBetter entry existing = true →
      (submitCore table entry).table =
        (List.insertionSort lexLeP (table.set i entry)).take 100) := by
  constructor
  · intro hb
    unfold submitCore
    simp only [hfind, hget, hb, Bool.false_eq_true, if_false]
  · intro hb
    unfold submitCore
    simp only [hfind, hget, hb, if_true]
    rfl

/-- C5 witness: the spec example, an existing (100, 5) entry and a worse
(150, 10) resubmission with one strictly better competitor. -/
theorem claim5_witness :
    (([⟨"alice", 100, 5, 3, "2026-01-01"⟩, ⟨"bob", 90, 2, 3, "2026-01-01"⟩] :
        List LBEntry).findIdx?
      (fun e => e.username == (⟨"alice", 150, 10, 3, "2026-01-01"⟩ : LBEntry).username) =
        some 0) ∧
    (([⟨"alice", 100, 5, 3, "2026-01-01"⟩, ⟨"bob", 90, 2, 3, "2026-01-01"⟩] :
        List LBEntry)[0]? = some ⟨"alice", 100, 5, 3, "2026-01-01"⟩) ∧
    (strictlyBetter ⟨"alice", 150, 10, 3, "2026-01-01"⟩ ⟨"alice", 100, 5, 3, "2026-01-01"⟩ =
      false) ∧
    submitCore [⟨"alice", 100, 5, 3, "2026-01-01"⟩, ⟨"bob", 90, 2, 3, "2026-01-01"⟩]
        ⟨"alice", 150, 10, 3, "2026-01-01"⟩ =
      ⟨[⟨"alice", 100, 5, 3, "2026-01-01"⟩, ⟨"bob", 90, 2, 3, "2026-01-01"⟩],
        (([⟨"alice", 100, 5, 3, "2026-01-01"⟩, ⟨"bob", 90, 2, 3, "2026-01-01"⟩] :
          List LBEntry).countP
            (fun e => strictlyBetter e ⟨"alice", 100, 5, 3, "2026-01-01"⟩) : Nat) + 1,
        true⟩ :=
  ⟨by decide, by decide, by decide,
   (claim5_resubmission
     [⟨"alice", 100, 5, 3, "2026-01-01"⟩, ⟨"bob", 90, 2, 3, "2026-01-01"⟩]
     ⟨"alice", 150, 10, 3, "2026-01-01"⟩ ⟨"alice", 100, 5, 3, "2026-01-01"⟩ 0
     (by decide) (by decide)).1 (by decide)⟩

/-- C6: after an append or replacement (specInsertedTable returning the
post-insertion table L), submit sorts L by (time, moves) ascending, keeps
the first 100 entries, reports rank 1 + the found index of the submitter in
that final table (0 when truncated out, from findIndex = -1), the final
table is sorted; and when L exceeds 100 entries the final table has exactly
100, and together with the dropped suffix it is a permutation of L in which
every kept entry compares no worse than every dropped one. -/
theorem claim6_sort_truncate (table : List LBEntry) (entry : LBEntry) (L : List LBEntry)
    (h : specInsertedTable table entry = some L) :
    (submitCore table entry).table = (List.insertionSort lexLeP L).take 100 ∧
    (submitCore table entry).rank =
      (match ((List.insertionSort lexLeP L).take 100).findIdx?
          (fun e => e.username == entry.username) with
        | some k => (k : Int) + 1
        | none => 0) ∧
    List.Pairwise lexLeP (submitCore table entry).table ∧
    (100 < L.length →
      (submitCore table entry).table.length = 100 ∧
      L.Perm ((submitCore table entry).table ++ (List.insertionSort lexLeP L).drop 100) ∧
      ∀ x ∈ (submitCore table entry).table, ∀ y ∈ (List.insertionSort lexLeP L).drop 100,
        lexLeP x y) := by
  rw [submitCore_insert h]
  have hsorted : List.Sorted lexLeP (List.insertionSort lexLeP L) :=
    List.sorted_insertionSort lexLeP L
  have hperm : (List.insertionSort lexLeP L).Perm L := List.perm_insertionSort lexLeP L
  have hpw : List.Pairwise lexLeP ((List.insertionSort lexLeP L).take 100 ++
      (List.insertionSort lexLeP L).drop 100) := by
    rw [List.take_append_drop]
    exact hsorted
  refine ⟨rfl, rfl, ?_, ?_⟩
  · exact List.Pairwise.sublist (List.take_sublist _ _) hsorted
  · intro hlen
    have hlen' : (List.insertionSort lexLeP L).length = L.length := hperm.length_eq
    refine ⟨?_, ?_, ?_⟩
    · show ((List.insertionSort lexLeP L).take 100).length = 100
      rw [List.length_take, hlen']
      omega
    · show L.Perm ((List.insertionSort lexLeP L).take 100 ++
        (List.insertionSort lexLeP L).drop 100)
      rw [List.take_append_drop]
      exact hperm.symm
    · exact fun x hx y hy => (List.pairwise_append.mp hpw).2.2 x hx y hy

/-- C6 witness: appending a new user to a one-entry table. -/
theorem claim6_witness :
    specInsertedTable [⟨"bob", 90, 2, 3, "2026-01-01"⟩] ⟨"alice", 100, 5, 3, "2026-01-01"⟩ =
      some [⟨"bob", 90, 2, 3, "2026-01-01"⟩, ⟨"alice", 100, 5, 3, "2026-01-01"⟩] ∧
    ((submitCore [⟨"bob", 90, 2, 3, "2026-01-01"⟩] ⟨"alice", 100, 5, 3, "2026-01-01"⟩).table =
      (List.insertionSort lexLeP
        [⟨"bob", 90, 2, 3, "2026-01-01"⟩, ⟨"alice", 100, 5, 3, "2026-01-01"⟩]).take 100 ∧
    (submitCore [⟨"bob", 90, 2, 3, "2026-01-01"⟩] ⟨"alice", 100, 5, 3, "2026-01-01"⟩).rank =
      (match ((List.insertionSort lexLeP
          [⟨"bob", 90, 2, 3, "2026-01-01"⟩, ⟨"alice", 100, 5, 3, "2026-01-01"⟩]).take
            100).findIdx?
          (fun e => e.username == (⟨"alice", 100, 5, 3, "2026-01-01"⟩ : LBEntry).username) with
        | some k => (k : Int) + 1
        | none => 0) ∧
    List.Pairwise lexLeP
      (submitCore [⟨"bob", 90, 2, 3, "2026-01-01"⟩]
        ⟨"alice", 100, 5, 3, "2026-01-01"⟩).table ∧
    (100 < ([⟨"bob", 90, 2, 3, "2026-01-01"⟩, ⟨"alice", 100, 5, 3, "2026-01-01"⟩] :
        List LBEntry).length →
      (submitCore [⟨"bob", 90, 2, 3, "2026-01-01"⟩]
        ⟨"alice", 100, 5, 3, "2026-01-01"⟩).table.length = 100 ∧
      ([⟨"bob", 90, 2, 3, "2026-01-01"⟩, ⟨"alice", 100, 5, 3, "2026-01-01"⟩] :
        List LBEntry).Perm
        ((submitCore [⟨"bob", 90, 2, 3, "2026-01-01"⟩]
          ⟨"alice", 100, 5, 3, "2026-01-01"⟩).table ++
          (List.insertionSort lexLeP
            [⟨"bob", 90, 2, 3, "2026-01-01"⟩, ⟨"alice", 100, 5, 3, "2026-01-01"⟩]).drop 100) ∧
      ∀ x ∈ (submitCore [⟨"bob", 90, 2, 3, "2026-01-01"⟩]
        ⟨"alice", 100, 5, 3, "2026-01-01"⟩).table,
        ∀ y ∈ (List.insertionSort lexLeP
          [⟨"bob", 90, 2, 3, "2026-01-01"⟩, ⟨"alice", 100, 5, 3, "2026-01-01"⟩]).drop 100,
          lexLeP x y)) :=
  ⟨by decide,
   claim6_sort_truncate [⟨"bob", 90, 2, 3, "2026-01-01"⟩] ⟨"alice", 100, 5, 3, "2026-01-01"⟩
     [⟨"bob", 90, 2, 3, "2026-01-01"⟩, ⟨"alice", 100, 5, 3, "2026-01-01"⟩] (by decide)⟩

/-- C9 counterexample: a submit-score request carrying difficulty 6 (outside
the closed set 3, 4, 5) is not rejected: it succeeds with rank 1 and the
leaderboard table for difficulty 6 is read and modified. -/
theorem claim9_counterexample :
    submitScoreEndpoint 100 10 6 (some "alice") "2026-01-01" [] =
      (SubmitResponse.success 1, [⟨"alice", 100, 10, 6, "2026-01-01"⟩]) := by
  decide

/-- C9 (amended): the leaderboard-query endpoint rejects every difficulty
outside 3, 4, 5 before consulting the store; the score-submission endpoint,
however, only rejects zero (JavaScript-falsy) fields, and processes any
nonzero difficulty, reading and updating the table for it. -/
theorem claim9_validation (d : Int) (h3 : d ≠ 3) (h4 : d ≠ 4) (h5 : d ≠ 5) :
    (∀ stored, getLeaderboardEndpoint d stored =
      Except.error "Invalid difficulty. Must be 3, 4, or 5") ∧
    (∀ (time moves : Int), time ≠ 0 → moves ≠ 0 → d ≠ 0 →
      ∀ (u : String) (date : String) (table : List LBEntry),
        submitScoreEndpoint time moves d (some u) date table =
          (SubmitResponse.success (submitCore table ⟨u, time, moves, d, date⟩).rank,
            (submitCore table ⟨u, time, moves, d, date⟩).table)) := by
  constructor
  · intro stored
    unfold getLeaderboardEndpoint
    rw [if_pos ⟨h3, h4, h5⟩]
  · intro time moves ht hm hd u date table
    unfold submitScoreEndpoint
    rw [if_neg (by omega)]

/-- C9 witness: difficulty 6. -/
theorem claim9_witness :
    ((6:Int) ≠ 3) ∧ ((6:Int) ≠ 4) ∧ ((6:Int) ≠ 5) ∧
      ((∀ stored, getLeaderboardEndpoint 6 stored =
        Except.error "Invalid difficulty. Must be 3, 4, or 5") ∧
      (∀ (time moves : Int), time ≠ 0 → moves ≠ 0 → (6:Int) ≠ 0 →
        ∀ (u : String) (date : String) (table : List LBEntry),
          submitScoreEndpoint time moves 6 (some u) date table =
            (SubmitResponse.success (submitCore table ⟨u, time, moves, 6, date⟩).rank,
              (submitCore table ⟨u, time, moves, 6, date⟩).table))) :=
  ⟨by decide, by decide, by decide,
   claim9_validation 6 (by decide) (by decide) (by decide)⟩

end Memegrid
